import Mathlib

/-!
Verification of `abc_container.py`: the `ABContainer` metaclass, which checks
at class-creation time that subclasses of "container" interfaces expose all
attributes listed in the interfaces' annotations.

The embedding models a Python class object as a `PyClass`: its `__name__`,
its direct `__bases__` (full class objects), the set of names bound in its
class dict, the keys of its own `__annotations__` dict in declaration order
(Python 3.10+ semantics: `cls.__annotations__` on a class yields that class's
own annotations only, an empty dict when it declares none; a name annotated
in a class body appears among these keys whether or not it also carries an
assigned value), and the name of its metaclass (what `type(cls)` returns).
-/

namespace AbcContainer

/-- A Python class object, as seen by `abc_container.py`:
`name` is `cls.__name__`; `bases` is `cls.__bases__` (direct bases, in order);
`dict` is the list of attribute names bound in the class's own namespace
(keys of `cls.__dict__` that hold values); `annots` is the list of keys of the
class's own `__annotations__` in declaration order (Python mangles a
double-underscore-led identifier in a class body to `_ClassName__ident`
before it is stored, so these keys are the post-mangling names); `meta` is
the name of `type(cls)`, the metaclass that produced the class. -/
inductive PyClass : Type where
  | mk (name : String) (bases : List PyClass) (dict : List String)
       (annots : List String) (meta : String)

/-- `cls.__name__`. -/
def PyClass.name : PyClass → String
  | .mk n _ _ _ _ => n

/-- `cls.__bases__`. -/
def PyClass.bases : PyClass → List PyClass
  | .mk _ b _ _ _ => b

/-- Names bound in the class's own dict. -/
def PyClass.dict : PyClass → List String
  | .mk _ _ d _ _ => d

/-- Keys of the class's own `__annotations__`, in declaration order. -/
def PyClass.annots : PyClass → List String
  | .mk _ _ _ a _ => a

/-- The name of `type(cls)`. -/
def PyClass.meta : PyClass → String
  | .mk _ _ _ _ m => m

/-- The builtin `object` class: no bases, a class dict holding its standard
attributes, no annotations, metaclass `type`. -/
def objectClass : PyClass :=
  .mk "object" [] ["__init__", "__new__", "__eq__", "__hash__", "__str__", "__repr__"] [] "type"

mutual
/-- `ABContainer.__get_class_bases(cls)`: all classes the given class
transitively inherits from, collected by walking `cls.__bases__`
recursively (the Python list contains duplicates; only the resulting
collection of members is consumed downstream). -/
def PyClass.transBases : PyClass → List PyClass
  | .mk _ bs _ _ _ => bs ++ transBasesList bs

/-- Helper for `PyClass.transBases`: the walk over a list of bases. -/
def transBasesList : List PyClass → List PyClass
  | [] => []
  | c :: cs => c.transBases ++ transBasesList cs
end

mutual
/-- Python's `hasattr(cls, attr)` for a class: whether `attr` is bound in the
class's own dict or in the dict of any class it transitively inherits from
(attribute lookup along the MRO). -/
def hasattr : PyClass → String → Bool
  | .mk _ bs d _ _, attr => d.contains attr || hasattrList bs attr

/-- Helper for `hasattr`: lookup through a list of bases. -/
def hasattrList : List PyClass → String → Bool
  | [], _ => false
  | c :: cs, attr => hasattr c attr || hasattrList cs attr
end

/-- The name of the `ABContainer` metaclass; `type(parent) == ABContainer`
is modelled as `parent.meta = ABContainerName`. -/
def ABContainerName : String := "ABContainer"

/-- `ABContainer._get_class_bases(cls)`: the unique collection of names of
classes that `cls` inherits from (`{base.__name__ for base in bases}`,
modelled as a deduplicated list). -/
def getClassBases (c : PyClass) : List String :=
  (c.transBases.map PyClass.name).dedup

/-- The `omit_names` set of `_get_class_needed_attributes`: the ancestor
names together with the class's own name (`omit_names.add(cls.__name__)`). -/
def omitNames (c : PyClass) : List String :=
  (getClassBases c).insert c.name

/-- The `omit_starting_sequences` set: a prefix `_{name}__` for every omitted
name. -/
def omitStartingSequences (c : PyClass) : List String :=
  (omitNames c).map (fun n => "_" ++ n ++ "__")

/-- The `all_inherit_attributes` list of `_get_class_needed_attributes`:
`[attribute for attribute in cls.__annotations__.keys()]`, the class's own
annotation keys. -/
def allInheritAttributes (c : PyClass) : List String :=
  c.annots

/-- Python's `s.startswith(pre)`: the characters of `pre` are a prefix of the
characters of `s`. -/
def strStartsWith (s pre : String) : Bool :=
  pre.data.isPrefixOf s.data

/-- `ABContainer._get_class_needed_attributes(cls)`: the class's own
annotation keys, dropping every one that starts with some omit prefix. -/
def getClassNeededAttributes (c : PyClass) : List String :=
  (allInheritAttributes c).filter
    (fun attr => !(omitStartingSequences c).any (fun s => strStartsWith attr s))

/-- The single error kind raised by `ABContainer.__new__`: a `NameError`
carrying its message. -/
inductive PyError : Type where
  | nameError (msg : String)

/-- The `parent_required_attributes` list built by `ABContainer.__new__`:
for each direct base whose metaclass is exactly `ABContainer`, in order,
extend with that base's needed attributes. -/
def parentRequiredAttributes (bases : List PyClass) : List String :=
  ((bases.filter (fun b => b.meta == ABContainerName)).map getClassNeededAttributes).flatten

/-- The `is_first_level_child` flag of `ABContainer.__new__`: true when no
direct base has `ABContainer` as its exact metaclass. -/
def isFirstLevelChild (bases : List PyClass) : Bool :=
  bases.all (fun b => b.meta != ABContainerName)

/-- The `missing_requirements` list of `ABContainer.__new__`: the
accumulated parent requirements that `hasattr` does not find on the
candidate class, in encounter order. -/
def missingRequirements (cls : PyClass) (bases : List PyClass) : List String :=
  (parentRequiredAttributes bases).filter (fun r => !hasattr cls r)

/-- `super().__new__(mcs, what, bases, _dict)`: the fully constructed class.
A Python class declared with no bases gets `__bases__ == (object,)`. -/
def makeClass (mcs what : String) (bases : List PyClass)
    (dict annots : List String) : PyClass :=
  .mk what (if bases.isEmpty then [objectClass] else bases) dict annots mcs

/-- `ABContainer.__new__(mcs, what, bases, _dict)`: construct the class,
classify by direct bases, then either require a non-empty needed set (root)
or require every accumulated parent requirement to be present (subclass);
on failure raise a `NameError`, otherwise return the class. -/
def ABContainerNew (mcs what : String) (bases : List PyClass)
    (dict annots : List String) : Except PyError PyClass :=
  let cls := makeClass mcs what bases dict annots
  if isFirstLevelChild bases then
    if (getClassNeededAttributes cls).isEmpty then
      .error (.nameError ("Container " ++ what ++ " does not contain any required fields."))
    else
      .ok cls
  else
    let missing := missingRequirements cls bases
    if !missing.isEmpty then
      .error (.nameError ("Container " ++ what ++ " does not handle following attributes "
        ++ String.intercalate ", " missing ++ "."))
    else
      .ok cls

/-- The message of the error result, if any. -/
def resultErrMsg : Except PyError PyClass → Option String
  | .error (.nameError m) => some m
  | .ok _ => none

/-- Whether class creation succeeded. -/
def resultIsOk : Except PyError PyClass → Bool
  | .ok _ => true
  | .error _ => false

/-- The ancestry relation of the Python object model, stated independently of
the code's traversal: `Ancestor a c` holds when `a` is a direct base of `c`
or an ancestor of a direct base of `c`. -/
inductive Ancestor : PyClass → PyClass → Prop where
  | base {a c : PyClass} : a ∈ c.bases → Ancestor a c
  | step {a b c : PyClass} : Ancestor a b → b ∈ c.bases → Ancestor a c

/-- Well-formedness of a class object with respect to the real Python object
model: every inheritance chain is finite and bottoms out at `object` (every
class other than `object` has at least one base). -/
inductive Grounded : PyClass → Prop where
  | obj : Grounded objectClass
  | node {c : PyClass} : c.bases ≠ [] → (∀ b ∈ c.bases, Grounded b) → Grounded c

/-- Modelled from the spec: the collection the spec's step 1 describes, "the
set of names declared-but-unassigned directly on that class" — the class's
own annotation keys that do not carry an assigned value in the class dict.
Stated for comparison with `allInheritAttributes`, which is what the code
computes. -/
def specDeclaredUnassigned (c : PyClass) : List String :=
  c.annots.filter (fun a => !c.dict.contains a)

/-! ### Basic lemmas about the ancestry walk and attribute lookup -/

theorem sizeOf_lt_of_mem_bases {b c : PyClass} (h : b ∈ c.bases) : sizeOf b < sizeOf c := by
  cases c with
  | mk n bs d a m =>
    simp only [PyClass.bases] at h
    have hlt := List.sizeOf_lt_of_mem h
    simp only [PyClass.mk.sizeOf_spec]
    omega

theorem mem_transBasesList {l : List PyClass} {x : PyClass} :
    x ∈ transBasesList l ↔ ∃ c ∈ l, x ∈ c.transBases := by
  induction l with
  | nil => simp [transBasesList]
  | cons c cs ih => simp [transBasesList, ih]

theorem mem_transBases {c x : PyClass} :
    x ∈ c.transBases ↔ x ∈ c.bases ∨ ∃ b ∈ c.bases, x ∈ b.transBases := by
  cases c with
  | mk n bs d a m =>
    simp [PyClass.transBases, PyClass.bases, mem_transBasesList]

theorem ancestor_of_mem_transBases_aux :
    ∀ (n : Nat) (c : PyClass), sizeOf c ≤ n → ∀ x ∈ c.transBases, Ancestor x c := by
  intro n
  induction n with
  | zero =>
    intro c hc
    cases c with
    | mk nm bs d a m => simp only [PyClass.mk.sizeOf_spec] at hc; omega
  | succ n ih =>
    intro c hc x hx
    rcases mem_transBases.mp hx with h | ⟨b, hb, hxb⟩
    · exact Ancestor.base h
    · have hsz : sizeOf b ≤ n := by
        have := sizeOf_lt_of_mem_bases hb
        omega
      exact Ancestor.step (ih b hsz x hxb) hb

theorem mem_transBases_of_ancestor {x c : PyClass} (h : Ancestor x c) : x ∈ c.transBases := by
  induction h with
  | base hb => exact mem_transBases.mpr (Or.inl hb)
  | step ha hb ih => exact mem_transBases.mpr (Or.inr ⟨_, hb, ih⟩)

theorem mem_transBases_iff_ancestor {x c : PyClass} :
    x ∈ c.transBases ↔ Ancestor x c :=
  ⟨fun h => ancestor_of_mem_transBases_aux (sizeOf c) c le_rfl x h, mem_transBases_of_ancestor⟩

theorem hasattrList_eq_true {l : List PyClass} {attr : String} :
    hasattrList l attr = true ↔ ∃ c ∈ l, hasattr c attr = true := by
  induction l with
  | nil => simp [hasattrList]
  | cons c cs ih => simp [hasattrList, ih]

theorem hasattr_unfold {c : PyClass} {attr : String} :
    hasattr c attr = (c.dict.contains attr || hasattrList c.bases attr) := by
  cases c with
  | mk n bs d a m => simp [hasattr, PyClass.dict, PyClass.bases]

theorem hasattr_of_base {b c : PyClass} {attr : String} (hb : b ∈ c.bases)
    (h : hasattr b attr = true) : hasattr c attr = true := by
  rw [hasattr_unfold]
  simp only [Bool.or_eq_true]
  exact Or.inr (hasattrList_eq_true.mpr ⟨b, hb, h⟩)

theorem hasattr_of_mem_dict {c : PyClass} {attr : String} (h : attr ∈ c.dict) :
    hasattr c attr = true := by
  rw [hasattr_unfold]
  simp only [Bool.or_eq_true]
  exact Or.inl (List.elem_iff.mpr h)

theorem hasattr_eq_true_aux :
    ∀ (n : Nat) (c : PyClass), sizeOf c ≤ n → ∀ attr : String,
      hasattr c attr = true → attr ∈ c.dict ∨ ∃ b, Ancestor b c ∧ attr ∈ b.dict := by
  intro n
  induction n with
  | zero =>
    intro c hc
    cases c with
    | mk nm bs d a m => simp only [PyClass.mk.sizeOf_spec] at hc; omega
  | succ n ih =>
    intro c hc attr h
    rw [hasattr_unfold] at h
    simp only [Bool.or_eq_true] at h
    rcases h with h | h
    · exact Or.inl (List.elem_iff.mp h)
    · obtain ⟨b, hb, hba⟩ := hasattrList_eq_true.mp h
      have hsz : sizeOf b ≤ n := by
        have := sizeOf_lt_of_mem_bases hb
        omega
      rcases ih b hsz attr hba with h' | ⟨b', hb', hd⟩
      · exact Or.inr ⟨b, Ancestor.base hb, h'⟩
      · exact Or.inr ⟨b', Ancestor.step hb' hb, hd⟩

theorem hasattr_eq_true_iff {c : PyClass} {attr : String} :
    hasattr c attr = true ↔ attr ∈ c.dict ∨ ∃ b, Ancestor b c ∧ attr ∈ b.dict := by
  constructor
  · exact hasattr_eq_true_aux (sizeOf c) c le_rfl attr
  · rintro (h | ⟨b, hb, hd⟩)
    · exact hasattr_of_mem_dict h
    · induction hb with
      | base hmem => exact hasattr_of_base hmem (hasattr_of_mem_dict hd)
      | step ha hmem ih => exact hasattr_of_base hmem ih

theorem mangle_injective : Function.Injective (fun n : String => "_" ++ n ++ "__") := by
  intro a b h
  have hd : ("_" ++ a ++ "__").data = ("_" ++ b ++ "__").data := congrArg String.data h
  have hd' : "_".data ++ a.data ++ "__".data = "_".data ++ b.data ++ "__".data := hd
  have h1 : "_".data ++ a.data = "_".data ++ b.data :=
    List.append_cancel_right hd'
  exact String.ext (List.append_cancel_left h1)

theorem makeClass_dict {mcs what : String} {bases : List PyClass} {dict annots : List String} :
    (makeClass mcs what bases dict annots).dict = dict := rfl

theorem makeClass_annots {mcs what : String} {bases : List PyClass} {dict annots : List String} :
    (makeClass mcs what bases dict annots).annots = annots := rfl

theorem isFirstLevelChild_eq_true {bases : List PyClass} :
    isFirstLevelChild bases = true ↔ ∀ b ∈ bases, ¬(b.meta = ABContainerName) := by
  simp [isFirstLevelChild, List.all_eq_true]

theorem isFirstLevelChild_eq_false {bases : List PyClass} :
    isFirstLevelChild bases = false ↔ ∃ b ∈ bases, b.meta = ABContainerName := by
  rw [← Bool.not_eq_true, isFirstLevelChild_eq_true]
  push_neg
  rfl

theorem ABContainerNew_ok_eq {mcs what : String} {bases : List PyClass}
    {dict annots : List String} {cls : PyClass}
    (h : ABContainerNew mcs what bases dict annots = .ok cls) :
    cls = makeClass mcs what bases dict annots := by
  simp only [ABContainerNew] at h
  split at h
  · split at h
    · exact absurd h (by simp)
    · exact (Except.ok.inj h).symm
  · split at h
    · exact absurd h (by simp)
    · exact (Except.ok.inj h).symm

theorem grounded_object_mem {c : PyClass} (h : Grounded c) :
    c = objectClass ∨ objectClass ∈ c.transBases := by
  induction h with
  | obj => exact Or.inl rfl
  | node hne hall ih =>
    right
    obtain ⟨b, hb⟩ := List.exists_mem_of_ne_nil _ hne
    rcases ih b hb with rfl | hmem
    · exact mem_transBases.mpr (Or.inl hb)
    · exact mem_transBases.mpr (Or.inr ⟨b, hb, hmem⟩)

/-! ### The claims -/

/-- C2: for a class created with no direct participating ancestor (a root
interface), an empty Required-Field Set makes class creation fail with the
empty-interface error naming the class, regardless of the (non-participating)
ancestry; a non-empty set raises no error and construction succeeds. -/
theorem c2_empty_root_interface_error (mcs what : String) (bases : List PyClass)
    (dict annots : List String)
    (hroot : ∀ b ∈ bases, ¬(b.meta = ABContainerName)) :
    (getClassNeededAttributes (makeClass mcs what bases dict annots) = [] →
      ABContainerNew mcs what bases dict annots =
        .error (.nameError ("Container " ++ what ++ " does not contain any required fields.")))
    ∧ (getClassNeededAttributes (makeClass mcs what bases dict annots) ≠ [] →
      ABContainerNew mcs what bases dict annots = .ok (makeClass mcs what bases dict annots)) := by
  have hflc : isFirstLevelChild bases = true := isFirstLevelChild_eq_true.mpr hroot
  constructor
  · intro hempty
    simp [ABContainerNew, hflc, hempty]
  · intro hne
    simp [ABContainerNew, hflc, List.isEmpty_iff, hne]

/-- C2 witness: a root interface with no qualifying fields is rejected with
the message naming it. -/
theorem c2_empty_root_interface_error_witness :
    ABContainerNew "ABContainer" "R" [] [] [] =
      .error (.nameError "Container R does not contain any required fields.") :=
  (c2_empty_root_interface_error "ABContainer" "R" [] [] [] (by simp)).1 rfl

/-- C1: a class created with at least one direct participating ancestor, for
which some accumulated parent requirement is not exposed as an attribute,
fails with an error whose message lists, in encounter order and joined by
", ", exactly the accumulated requirements that the constructed class does
not expose. -/
theorem c1_unmet_requirement_error (mcs what : String) (bases : List PyClass)
    (dict annots : List String)
    (hpart : ∃ b ∈ bases, b.meta = ABContainerName)
    (hmiss : missingRequirements (makeClass mcs what bases dict annots) bases ≠ []) :
    ABContainerNew mcs what bases dict annots =
      .error (.nameError ("Container " ++ what ++ " does not handle following attributes "
        ++ String.intercalate ", "
            ((parentRequiredAttributes bases).filter
              (fun r => !hasattr (makeClass mcs what bases dict annots) r))
        ++ ".")) := by
  have hflc : isFirstLevelChild bases = false := isFirstLevelChild_eq_false.mpr hpart
  have h2 : (missingRequirements (makeClass mcs what bases dict annots) bases).isEmpty = false := by
    rw [List.isEmpty_eq_false_iff_exists_mem]
    exact List.exists_mem_of_ne_nil _ hmiss
  simp [ABContainerNew, hflc, h2, missingRequirements]
  obtain ⟨x, hx⟩ := List.exists_mem_of_ne_nil _ hmiss
  rw [missingRequirements, List.mem_filter] at hx
  exact ⟨x, hx.1, by simpa using hx.2⟩

/-- C1 witness: a subclass of an interface requiring `a` and `b` that assigns
only `a` fails with a message enumerating exactly the missing name `b`. -/
theorem c1_unmet_requirement_error_witness :
    ABContainerNew "ABContainer" "S" [makeClass "ABContainer" "I" [] [] ["a", "b"]] ["a"] [] =
      .error (.nameError "Container S does not handle following attributes b.") :=
  c1_unmet_requirement_error "ABContainer" "S" [makeClass "ABContainer" "I" [] [] ["a", "b"]]
    ["a"] [] ⟨makeClass "ABContainer" "I" [] [] ["a", "b"], by simp, rfl⟩ (by decide)

/-- C3 counterexample: the first step of the required-field computation is
`cls.__annotations__.keys()`, which keeps a name that also carries an
assigned value, so it differs from "declared-but-unassigned" on a class
declaring `x: Any = 1`; observably, a root interface whose only annotated
name carries a value is accepted rather than rejected as empty. -/
theorem c3_counterexample :
    allInheritAttributes (makeClass "ABContainer" "R2" [] ["x"] ["x"]) ≠
        specDeclaredUnassigned (makeClass "ABContainer" "R2" [] ["x"] ["x"])
    ∧ resultIsOk (ABContainerNew "ABContainer" "R2" [] ["x"] ["x"]) = true :=
  ⟨by decide, rfl⟩

/-- C3 (amended): the first step collects exactly the names in the class's
own annotation block, in declaration order — never inherited annotations
(the collection is independent of the bases) and irrespective of whether a
name also carries an assigned value (the whole needed-attribute computation
is independent of the class dict, and only ever returns own annotation
names). -/
theorem c3_first_step_own_annotation_block (n : String) (bs : List PyClass)
    (d d' a : List String) (m : String) :
    allInheritAttributes (PyClass.mk n bs d a m) = a
    ∧ getClassNeededAttributes (PyClass.mk n bs d a m) =
        getClassNeededAttributes (PyClass.mk n bs d' a m)
    ∧ ∀ x ∈ getClassNeededAttributes (PyClass.mk n bs d a m), x ∈ a := by
  refine ⟨rfl, rfl, ?_⟩
  intro x hx
  exact (List.mem_filter.mp hx).1

/-- C3 amended witness: a class annotating `x` (with a value) and `y`
(without) has both names collected by the first step. -/
theorem c3_first_step_own_annotation_block_witness :
    allInheritAttributes (PyClass.mk "C" [] ["x"] ["x", "y"] "ABContainer") = ["x", "y"] :=
  (c3_first_step_own_annotation_block "C" [] ["x"] ["x"] ["x", "y"] "ABContainer").1

/-- C4 counterexample: two root interfaces each requiring `a` contribute two
occurrences to the accumulated requirement list, and a subclass missing `a`
is reported with `a` listed twice — not "each at most once". -/
theorem c4_counterexample :
    missingRequirements
        (makeClass "ABContainer" "S2"
          [makeClass "ABContainer" "I1" [] [] ["a"], makeClass "ABContainer" "I2" [] [] ["a"]]
          [] [])
        [makeClass "ABContainer" "I1" [] [] ["a"], makeClass "ABContainer" "I2" [] [] ["a"]]
      = ["a", "a"]
    ∧ resultErrMsg (ABContainerNew "ABContainer" "S2"
        [makeClass "ABContainer" "I1" [] [] ["a"], makeClass "ABContainer" "I2" [] [] ["a"]]
        [] [])
      = some "Container S2 does not handle following attributes a, a." :=
  ⟨rfl, rfl⟩

/-- C4 (amended): for a class with at least one participating direct
ancestor, validity is equivalent to exposing every name in the deduplicated
union of the ancestors' Required-Field Sets (two ancestors requiring the
same name are both satisfied by one attribute), and the failure list
contains exactly the actually-missing names — but a name required by
several ancestors occurs once per ancestor, not at most once. -/
theorem c4_union_requirement_semantics (mcs what : String) (bases : List PyClass)
    (dict annots : List String)
    (hpart : ∃ b ∈ bases, b.meta = ABContainerName) :
    (resultIsOk (ABContainerNew mcs what bases dict annots) = true ↔
      ∀ r ∈ (parentRequiredAttributes bases).dedup,
        hasattr (makeClass mcs what bases dict annots) r = true)
    ∧ (∀ r, r ∈ missingRequirements (makeClass mcs what bases dict annots) bases ↔
        (r ∈ parentRequiredAttributes bases
          ∧ hasattr (makeClass mcs what bases dict annots) r = false)) := by
  have hflc : isFirstLevelChild bases = false := isFirstLevelChild_eq_false.mpr hpart
  have key : resultIsOk (ABContainerNew mcs what bases dict annots) = true ↔
      missingRequirements (makeClass mcs what bases dict annots) bases = [] := by
    rw [ABContainerNew]
    simp only [hflc, Bool.false_eq_true, if_false]
    rcases h : missingRequirements (makeClass mcs what bases dict annots) bases with _ | ⟨x, xs⟩
    · simp [resultIsOk]
    · simp [resultIsOk]
  constructor
  · rw [key, missingRequirements, List.filter_eq_nil_iff]
    constructor
    · intro h r hr
      have := h r (List.mem_dedup.mp hr)
      simpa using this
    · intro h r hr
      simp [h r (List.mem_dedup.mpr hr)]
  · intro r
    rw [missingRequirements, List.mem_filter]
    simp [Bool.not_eq_true]

/-- C4 amended witness: a subclass of two interfaces that both require `a`,
assigning `a` once, is valid. -/
theorem c4_union_requirement_semantics_witness :
    resultIsOk (ABContainerNew "ABContainer" "S3"
      [makeClass "ABContainer" "I1" [] [] ["a"], makeClass "ABContainer" "I2" [] [] ["a"]]
      ["a"] []) = true :=
  (c4_union_requirement_semantics "ABContainer" "S3"
      [makeClass "ABContainer" "I1" [] [] ["a"], makeClass "ABContainer" "I2" [] [] ["a"]]
      ["a"] []
      ⟨makeClass "ABContainer" "I1" [] [] ["a"], by simp, rfl⟩).1.mpr
    (by
      intro r hr
      have : r ∈ (["a", "a"] : List String).dedup := hr
      rw [show (["a", "a"] : List String).dedup = ["a"] from rfl] at this
      rw [List.mem_singleton] at this
      subst this
      rfl)

/-- C5: the exclusion prefix collection of any class contains exactly the
prefix `_{Name}__` for the class's own name and for the name of every class
in its full ancestry graph (direct and transitive bases), holds each prefix
only once, and every own annotation key starting with one of these prefixes
is dropped from the Required-Field Set. -/
theorem c5_exclusion_prefix_set (c : PyClass) :
    (∀ s, s ∈ omitStartingSequences c ↔
        (s = "_" ++ c.name ++ "__" ∨ ∃ b, Ancestor b c ∧ s = "_" ++ b.name ++ "__"))
    ∧ (omitStartingSequences c).Nodup
    ∧ (∀ a ∈ allInheritAttributes c,
        (∃ s ∈ omitStartingSequences c, strStartsWith a s = true) →
          a ∉ getClassNeededAttributes c) := by
  have hnames : ∀ n, n ∈ omitNames c ↔ (n = c.name ∨ ∃ b, Ancestor b c ∧ b.name = n) := by
    intro n
    rw [omitNames, List.mem_insert_iff, getClassBases, List.mem_dedup, List.mem_map]
    constructor
    · rintro (h | ⟨b, hb, rfl⟩)
      · exact Or.inl h
      · exact Or.inr ⟨b, mem_transBases_iff_ancestor.mp hb, rfl⟩
    · rintro (h | ⟨b, hb, rfl⟩)
      · exact Or.inl h
      · exact Or.inr ⟨b, mem_transBases_iff_ancestor.mpr hb, rfl⟩
  refine ⟨?_, ?_, ?_⟩
  · intro s
    rw [omitStartingSequences, List.mem_map]
    constructor
    · rintro ⟨n, hn, rfl⟩
      rcases (hnames n).mp hn with rfl | ⟨b, hb, rfl⟩
      · exact Or.inl rfl
      · exact Or.inr ⟨b, hb, rfl⟩
    · rintro (rfl | ⟨b, hb, rfl⟩)
      · exact ⟨c.name, (hnames c.name).mpr (Or.inl rfl), rfl⟩
      · exact ⟨b.name, (hnames b.name).mpr (Or.inr ⟨b, hb, rfl⟩), rfl⟩
  · exact List.Nodup.map mangle_injective (List.Nodup.insert (List.nodup_dedup _))
  · intro a ha ⟨s, hs, hpre⟩ hmem
    rw [getClassNeededAttributes, List.mem_filter] at hmem
    have hfalse : (omitStartingSequences c).any (fun s => strStartsWith a s) = false := by
      have := hmem.2
      simp only [Bool.not_eq_true'] at this
      exact this
    rw [List.any_eq_false] at hfalse
    exact absurd hpre (by simpa using hfalse s hs)

/-- C5 witness: interface `X` declaring `required_field` and the mangled
private name `_X__private` never includes the private name in its
Required-Field Set, and `_X__` is among its exclusion prefixes. -/
theorem c5_exclusion_prefix_set_witness :
    "_X__private" ∉
      getClassNeededAttributes (makeClass "ABContainer" "X" [] [] ["required_field", "_X__private"]) :=
  (c5_exclusion_prefix_set (makeClass "ABContainer" "X" [] [] ["required_field", "_X__private"])).2.2
    "_X__private" (by decide) ⟨"_X__", by decide, rfl⟩

/-- C6: a required name checked against a subclass passes exactly when the
fully constructed class exposes an attribute of that name via its own class
dict or via any ancestor's dict; an annotation of the name on the subclass,
with no assigned value anywhere, leaves the requirement unmet. -/
theorem c6_attribute_exposure_check (mcs what : String) (bases : List PyClass)
    (dict annots : List String) (r : String)
    (hr : r ∈ parentRequiredAttributes bases) :
    (r ∉ missingRequirements (makeClass mcs what bases dict annots) bases ↔
      (r ∈ dict ∨ ∃ b, Ancestor b (makeClass mcs what bases dict annots) ∧ r ∈ b.dict))
    ∧ (r ∈ annots → r ∉ dict →
        (∀ b, Ancestor b (makeClass mcs what bases dict annots) → r ∉ b.dict) →
        r ∈ missingRequirements (makeClass mcs what bases dict annots) bases) := by
  have hpass : r ∉ missingRequirements (makeClass mcs what bases dict annots) bases ↔
      hasattr (makeClass mcs what bases dict annots) r = true := by
    rw [missingRequirements, List.mem_filter]
    constructor
    · intro h
      by_contra hno
      exact h ⟨hr, by simp [Bool.not_eq_true] at hno ⊢; exact hno⟩
    · intro h hc
      simp [h] at hc
  have hexpose := @hasattr_eq_true_iff (makeClass mcs what bases dict annots) r
  rw [makeClass_dict] at hexpose
  constructor
  · rw [hpass, hexpose]
  · intro _ hnd hanc
    by_contra hmem
    rcases (hpass.trans hexpose).mp hmem with h | ⟨b, hb, hd⟩
    · exact hnd h
    · exact hanc b hb hd

/-- C6 witness: the requirement `a` of interface `I` is met by a subclass
that assigns `a` in its own body. -/
theorem c6_attribute_exposure_check_witness :
    "a" ∉ missingRequirements
        (makeClass "ABContainer" "T" [makeClass "ABContainer" "I" [] [] ["a", "b"]] ["a", "b"] [])
        [makeClass "ABContainer" "I" [] [] ["a", "b"]] :=
  (c6_attribute_exposure_check "ABContainer" "T" [makeClass "ABContainer" "I" [] [] ["a", "b"]]
      ["a", "b"] [] "a" (by decide)).1.mpr (Or.inl (by decide))

/-- C7: a class whose single direct base is a participating class (such as a
valid subclass of a root interface) is created successfully with an empty
class dict — no inherited field is re-assigned — provided every field the
parent propagates is already exposed on the parent itself. -/
theorem c7_inherited_satisfaction (mcs what : String) (p : PyClass) (annots : List String)
    (hp : p.meta = ABContainerName)
    (hsat : ∀ r ∈ getClassNeededAttributes p, hasattr p r = true) :
    ABContainerNew mcs what [p] [] annots = .ok (makeClass mcs what [p] [] annots) := by
  have hflc : isFirstLevelChild [p] = false :=
    isFirstLevelChild_eq_false.mpr ⟨p, List.mem_singleton_self p, hp⟩
  have hreq : parentRequiredAttributes [p] = getClassNeededAttributes p := by
    simp [parentRequiredAttributes, hp]
  have hbase : p ∈ (makeClass mcs what [p] [] annots).bases := by
    simp [makeClass, PyClass.bases]
  have hmiss : missingRequirements (makeClass mcs what [p] [] annots) [p] = [] := by
    rw [missingRequirements, hreq, List.filter_eq_nil_iff]
    intro r hrmem
    simp [hasattr_of_base hbase (hsat r hrmem)]
  rw [ABContainerNew]
  simp [hflc, hmiss]

/-- C7 witness: `I` requires `a` and `b`; `A(I)` assigns both (keeping the
annotations); `AA(A)` with an empty body is accepted. -/
theorem c7_inherited_satisfaction_witness :
    ABContainerNew "ABContainer" "AA"
        [makeClass "ABContainer" "A" [makeClass "ABContainer" "I" [] [] ["a", "b"]]
          ["a", "b"] ["a", "b"]] [] [] =
      .ok (makeClass "ABContainer" "AA"
        [makeClass "ABContainer" "A" [makeClass "ABContainer" "I" [] [] ["a", "b"]]
          ["a", "b"] ["a", "b"]] [] []) :=
  c7_inherited_satisfaction "ABContainer" "AA"
    (makeClass "ABContainer" "A" [makeClass "ABContainer" "I" [] [] ["a", "b"]]
      ["a", "b"] ["a", "b"]) [] rfl
    (by
      intro r hrmem
      have h2 : r ∈ (["a", "b"] : List String) := by
        have := (List.mem_filter.mp hrmem).1
        exact this
      rcases List.mem_cons.mp h2 with rfl | h3
      · rfl
      · rw [List.mem_singleton] at h3
        subst h3
        rfl)

/-- C8: classification inspects only the direct base list — the root branch
is taken exactly when no direct base has the mechanism as its exact
metaclass — and every accumulated requirement stems from a direct base whose
exact metaclass is the mechanism. -/
theorem c8_classification_by_direct_bases (bases : List PyClass) :
    (isFirstLevelChild bases = true ↔ ∀ b ∈ bases, ¬(b.meta = ABContainerName))
    ∧ (∀ r, r ∈ parentRequiredAttributes bases ↔
        ∃ b ∈ bases, b.meta = ABContainerName ∧ r ∈ getClassNeededAttributes b) := by
  refine ⟨isFirstLevelChild_eq_true, ?_⟩
  intro r
  rw [parentRequiredAttributes, List.mem_flatten]
  constructor
  · rintro ⟨l, hl, hrl⟩
    obtain ⟨b, hb, rfl⟩ := List.mem_map.mp hl
    have hb' := List.mem_filter.mp hb
    exact ⟨b, hb'.1, by simpa using hb'.2, hrl⟩
  · rintro ⟨b, hb, hmeta, hrb⟩
    exact ⟨getClassNeededAttributes b,
      List.mem_map.mpr ⟨b, List.mem_filter.mpr ⟨hb, by simpa using hmeta⟩, rfl⟩, hrb⟩

/-- C8 witness: a class whose direct base only transitively descends from an
interface, but whose own metaclass is a proper subclass `Meta2` of the
mechanism, is classified as a root, and contributes no requirement. -/
theorem c8_classification_by_direct_bases_witness :
    isFirstLevelChild
      [makeClass "Meta2" "B" [makeClass "ABContainer" "I" [] [] ["a"]] ["a"] []] = true :=
  (c8_classification_by_direct_bases
      [makeClass "Meta2" "B" [makeClass "ABContainer" "I" [] [] ["a"]] ["a"] []]).1.mpr
    (by
      intro b hb
      rw [List.mem_singleton] at hb
      subst hb
      decide)

/-- C9: a direct subclass of a root interface whose Required-Field Set is
`[fa, fb]`, assigning values to both `fa` and `fb`, is created without
error and the fully constructed class is returned. -/
theorem c9_two_field_subclass_ok (mcs what : String) (iface : PyClass)
    (dict annots : List String) (fa fb : String)
    (hmeta : iface.meta = ABContainerName)
    (hreq : getClassNeededAttributes iface = [fa, fb])
    (ha : fa ∈ dict) (hb : fb ∈ dict) :
    ABContainerNew mcs what [iface] dict annots = .ok (makeClass mcs what [iface] dict annots) := by
  have hflc : isFirstLevelChild [iface] = false :=
    isFirstLevelChild_eq_false.mpr ⟨iface, List.mem_singleton_self iface, hmeta⟩
  have hreq' : parentRequiredAttributes [iface] = [fa, fb] := by
    simp [parentRequiredAttributes, hmeta, hreq]
  have hmiss : missingRequirements (makeClass mcs what [iface] dict annots) [iface] = [] := by
    rw [missingRequirements, hreq', List.filter_eq_nil_iff]
    intro r hrmem
    rcases List.mem_cons.mp hrmem with rfl | h3
    · simp [hasattr_of_mem_dict (show r ∈ (makeClass mcs what [iface] dict annots).dict from ha)]
    · rw [List.mem_singleton] at h3
      subst h3
      simp [hasattr_of_mem_dict (show r ∈ (makeClass mcs what [iface] dict annots).dict from hb)]
  rw [ABContainerNew]
  simp [hflc, hmiss]

/-- C9 witness: `I` requires `a` and `b`; `S(I)` assigning both succeeds. -/
theorem c9_two_field_subclass_ok_witness :
    ABContainerNew "ABContainer" "S4" [makeClass "ABContainer" "I" [] [] ["a", "b"]]
        ["a", "b"] [] =
      .ok (makeClass "ABContainer" "S4" [makeClass "ABContainer" "I" [] [] ["a", "b"]]
        ["a", "b"] []) :=
  c9_two_field_subclass_ok "ABContainer" "S4" (makeClass "ABContainer" "I" [] [] ["a", "b"])
    ["a", "b"] [] "a" "b" rfl rfl (by decide) (by decide)

/-- C10: because the ancestor walk of any class whose bases are real Python
classes reaches `object`, every class the mechanism returns carries the
exclusion prefix `_object__`, and any annotated name starting with
`_object__` is excluded from its Required-Field Set. -/
theorem c10_object_prefix_always_excluded (mcs what : String) (bases : List PyClass)
    (dict annots : List String) (cls : PyClass)
    (hg : ∀ b ∈ bases, Grounded b)
    (hok : ABContainerNew mcs what bases dict annots = .ok cls) :
    "_object__" ∈ omitStartingSequences cls
    ∧ ∀ attr, strStartsWith attr "_object__" = true → attr ∉ getClassNeededAttributes cls := by
  have hcls := ABContainerNew_ok_eq hok
  have hobj : objectClass ∈ cls.transBases := by
    subst hcls
    rcases hbe : bases.isEmpty with _ | _
    · rw [List.isEmpty_eq_false_iff_exists_mem] at hbe
      obtain ⟨b, hb⟩ := hbe
      have hbase : b ∈ (makeClass mcs what bases dict annots).bases := by
        simp only [makeClass, PyClass.bases]
        rw [if_neg (by simp [List.isEmpty_iff]; rintro rfl; exact absurd hb (List.not_mem_nil b))]
        exact hb
      rcases grounded_object_mem (hg b hb) with rfl | hmem
      · exact mem_transBases.mpr (Or.inl hbase)
      · exact mem_transBases.mpr (Or.inr ⟨b, hbase, hmem⟩)
    · rw [List.isEmpty_iff] at hbe
      have hbase : objectClass ∈ (makeClass mcs what bases dict annots).bases := by
        simp [makeClass, PyClass.bases, hbe]
      exact mem_transBases.mpr (Or.inl hbase)
  have hname : "object" ∈ omitNames cls :=
    List.mem_insert_iff.mpr (Or.inr (List.mem_dedup.mpr
      (List.mem_map.mpr ⟨objectClass, hobj, rfl⟩)))
  refine ⟨List.mem_map.mpr ⟨"object", hname, rfl⟩, ?_⟩
  intro attr hpre hmem
  rw [getClassNeededAttributes, List.mem_filter] at hmem
  have hfalse : (omitStartingSequences cls).any (fun s => strStartsWith attr s) = false := by
    have := hmem.2
    simp only [Bool.not_eq_true'] at this
    exact this
  rw [List.any_eq_false] at hfalse
  have h1 : "_object__" ∈ omitStartingSequences cls :=
    List.mem_map.mpr ⟨"object", hname, rfl⟩
  exact absurd hpre (by simpa using hfalse "_object__" h1)

/-- C10 witness: a base-less interface gets `_object__` among its exclusion
prefixes, and an annotated name starting with `_object__` is not required. -/
theorem c10_object_prefix_always_excluded_witness :
    "_object__" ∈ omitStartingSequences (makeClass "ABContainer" "W" [] [] ["f"])
    ∧ "_object__x" ∉ getClassNeededAttributes (makeClass "ABContainer" "W" [] [] ["f"]) :=
  ⟨(c10_object_prefix_always_excluded "ABContainer" "W" [] [] ["f"]
      (makeClass "ABContainer" "W" [] [] ["f"]) (by simp) rfl).1,
   (c10_object_prefix_always_excluded "ABContainer" "W" [] [] ["f"]
      (makeClass "ABContainer" "W" [] [] ["f"]) (by simp) rfl).2 "_object__x" rfl⟩

end AbcContainer
